import Mathlib

/-!
Shallow embedding of the bbot conversational-bot framework core
(TypeScript sources under src/), restricted to the parts the verified
claims are about: Path branch collections, Memory persistence,
lifecycle status flags, settings name sanitisation, the generic
Middleware pipeline, and the Condition/Expression compiler.

JavaScript objects used as keyed collections are modelled as
insertion-ordered association lists `List (String × α)`; a real JS
object never holds two entries with the same key, which appears here as
`Nodup` hypotheses where a theorem needs it.
-/

namespace Bbot

/-! ### JS object primitives -/

/-- JS property read `o[k]`: value of the first entry with the key. -/
def objGet (o : List (String × α)) (k : String) : Option α :=
  (o.find? (fun kv => kv.1 = k)).map (fun kv => kv.2)

/-- JS property write `o[k] = v`: update the entry in place if the key
exists (keeping its position), else append a new entry. -/
def objSet (o : List (String × α)) (k : String) (v : α) : List (String × α) :=
  if (o.find? (fun kv => kv.1 = k)).isSome
    then o.map (fun kv => if kv.1 = k then (k, v) else kv)
    else o ++ [(k, v)]

/-- JS `Object.assign({}, a, b)`: keys of `a` in order with values
overridden by `b` where present, then keys of `b` not in `a`. -/
def objAssign (a b : List (String × α)) : List (String × α) :=
  a.map (fun kv => (kv.1, ((objGet b kv.1).getD kv.2))) ++
    b.filter (fun kv => (objGet a kv.1).isNone)

/-! ### Path (src/lib/path.ts)

A `Branch` is reduced to the fields the claims observe: its id and the
`force` flag.  A `Path` holds one branch map per stage. -/

structure Branch where
  id : String
  force : Bool
  deriving DecidableEq, Repr

/-- Insertion-ordered branch map, as a JS object keyed by branch id. -/
abbrev BranchMap := List (String × Branch)

/-- The stages `forced` and `reset` operate on (`serve` is excluded by
the signature of `Path.forced` in the source). -/
inductive Stage
  | listen
  | understand
  | act
  deriving DecidableEq, Repr

structure Path where
  scope : String
  listen : BranchMap
  understand : BranchMap
  serve : BranchMap
  act : BranchMap
  deriving DecidableEq, Repr

/-- `this[collection]` for the three resettable stages. -/
def Path.stage (p : Path) : Stage → BranchMap
  | .listen => p.listen
  | .understand => p.understand
  | .act => p.act

/-- Replace one stage's branch map. -/
def Path.setStage (p : Path) (s : Stage) (m : BranchMap) : Path :=
  match s with
  | .listen => { p with listen := m }
  | .understand => { p with understand := m }
  | .act => { p with act := m }

/-- `Path.forced(collection)`: delete every branch whose `force` flag is
not set, then return the number of remaining keys (paired here with the
mutated path, since the JS method mutates `this`). -/
def Path.forced (p : Path) (s : Stage) : Nat × Path :=
  let remaining := (p.stage s).filter (fun kv => kv.2.force)
  (remaining.length, p.setStage s remaining)

/-- `Path.reset()`: empty the `listen`, `understand` and `act` maps. -/
def Path.reset (p : Path) : Path :=
  { p with listen := [], understand := [], act := [] }

theorem Path.stage_setStage (p : Path) (s : Stage) (m : BranchMap) :
    (p.setStage s m).stage s = m := by
  cases s <;> rfl

/-- C4: after `P.forced(s)` every remaining branch in `P[s]` is forced,
and the returned count is the number of remaining branches. -/
theorem forced_all_force_and_count (p : Path) (s : Stage) :
    (∀ kv ∈ ((p.forced s).2.stage s), kv.2.force = true) ∧
      (p.forced s).1 = ((p.forced s).2.stage s).length := by
  have hst : (p.forced s).2.stage s = (p.stage s).filter (fun kv => kv.2.force) :=
    Path.stage_setStage p s _
  constructor
  · intro kv hkv
    rw [hst] at hkv
    exact (List.mem_filter.mp hkv).2
  · rw [hst]
    rfl

/-- C4 witness input: a path with one forced and one unforced branch. -/
def c4Path : Path :=
  { scope := "global"
    listen := [("a", { id := "a", force := true }), ("b", { id := "b", force := false })]
    understand := []
    serve := []
    act := [] }

/-- C4 witness: the theorem applied at a concrete path and stage. -/
theorem forced_all_force_and_count_witness :
    (∀ kv ∈ ((c4Path.forced .listen).2.stage .listen), kv.2.force = true) ∧
      (c4Path.forced .listen).1 = ((c4Path.forced .listen).2.stage .listen).length :=
  forced_all_force_and_count c4Path .listen

/-- C8: `reset()` empties `listen`, `understand` and `act`, and leaves
the `serve` map exactly as it was. -/
theorem reset_empties_and_preserves_serve (p : Path) :
    p.reset.listen = [] ∧ p.reset.understand = [] ∧ p.reset.act = [] ∧
      p.reset.serve = p.serve :=
  ⟨rfl, rfl, rfl, rfl⟩

/-! ### Memory (src/lib/memory.ts)

The memory singleton's enumerable collections (`users`, `rooms`,
`private`, and any user-defined ones) are a JS object from collection
name to collection; each collection maps keys to values of type `α`.
The storage adapter slot is `none` when no adapter is registered; with
an adapter (as assumed by the round-trip claim) `loadMemory` returns
exactly the object last passed to `saveMemory`, modelled by the inner
option.  Timer management (`clearSaveInterval`/`setSaveInterval`) has no
effect on the stored data and is not modelled. -/

abbrev Collection (α : Type) := List (String × α)

structure MemorySys (α : Type) where
  mem : List (String × Collection α)
  storage : Option (Option (List (String × Collection α)))
  deriving DecidableEq, Repr

/-- The error kind the spec assigns to memory operations attempted
without a storage adapter (§7 `StorageUnavailable`). -/
inductive MemoryFailure
  | storageUnavailable
  deriving DecidableEq, Repr

/-- `Memory.save()`: `if (!adapter.adapters.storage) return` — a plain
early return, no error — else `storage.saveMemory(memory)`. -/
def Memory.save (s : MemorySys α) : Except MemoryFailure (MemorySys α) :=
  match s.storage with
  | none => .ok s
  | some _ => .ok { s with storage := some (some s.mem) }

/-- The merge loop of `Memory.load()`:
`for key in loaded: this[key] = Object.assign({}, this[key], loaded[key])`. -/
def loadMerge (mem loaded : List (String × Collection α)) : List (String × Collection α) :=
  loaded.foldl
    (fun m kv => objSet m kv.1 (objAssign ((objGet m kv.1).getD []) kv.2)) mem

/-- `Memory.load()`: warn and return when no storage adapter is
registered (again no error), else merge `loadMemory()` key by key. -/
def Memory.load (s : MemorySys α) : Except MemoryFailure (MemorySys α) :=
  match s.storage with
  | none => .ok s
  | some stored => .ok { s with mem := loadMerge s.mem (stored.getD []) }

theorem objGet_of_mem_nodup {α : Type} {m : List (String × α)} {kv : String × α}
    (hnd : (m.map Prod.fst).Nodup) (hm : kv ∈ m) : objGet m kv.1 = some kv.2 := by
  induction m with
  | nil => cases hm
  | cons hd tl ih =>
    rcases List.mem_cons.mp hm with h | h
    · subst h
      unfold objGet
      rw [List.find?_cons_of_pos _ (by simp)]
      rfl
    · by_cases hk : hd.1 = kv.1
      · exfalso
        rw [List.map_cons] at hnd
        have hmem : kv.1 ∈ tl.map Prod.fst := List.mem_map.mpr ⟨kv, h, rfl⟩
        rw [← hk] at hmem
        exact (List.nodup_cons.mp hnd).1 hmem
      · have htl : (tl.map Prod.fst).Nodup := by
          rw [List.map_cons] at hnd
          exact (List.nodup_cons.mp hnd).2
        unfold objGet at ih ⊢
        rw [List.find?_cons_of_neg]
        · exact ih htl h
        · simp [hk]

theorem objAssign_self {α : Type} (c : List (String × α))
    (h : (c.map Prod.fst).Nodup) : objAssign c c = c := by
  unfold objAssign
  have hfilter : c.filter (fun kv => (objGet c kv.1).isNone) = [] := by
    rw [List.filter_eq_nil_iff]
    intro kv hkv
    rw [objGet_of_mem_nodup h hkv]
    simp
  have hmap : c.map (fun kv => (kv.1, (objGet c kv.1).getD kv.2)) = c := by
    have hid : ∀ kv ∈ c, (kv.1, (objGet c kv.1).getD kv.2) = kv := by
      intro kv hkv
      rw [objGet_of_mem_nodup h hkv]
      rfl
    calc c.map (fun kv => (kv.1, (objGet c kv.1).getD kv.2))
        = c.map id := List.map_congr_left hid
      _ = c := List.map_id c
  rw [hfilter, hmap, List.append_nil]

theorem objSet_self {α : Type} {m : List (String × α)} {k : String} {c : α}
    (hget : objGet m k = some c) (huniq : ∀ kv ∈ m, kv.1 = k → kv.2 = c) :
    objSet m k c = m := by
  unfold objSet
  rw [if_pos]
  · have hid : ∀ kv ∈ m, (if kv.1 = k then (k, c) else kv) = kv := by
      intro kv hkv
      by_cases hk : kv.1 = k
      · rw [if_pos hk, ← hk, ← huniq kv hkv hk]
      · rw [if_neg hk]
    calc m.map (fun kv => if kv.1 = k then (k, c) else kv)
        = m.map id := List.map_congr_left hid
      _ = m := List.map_id m
  · unfold objGet at hget
    rcases hfind : m.find? (fun kv => kv.1 = k) with _ | kv
    · rw [hfind] at hget
      cases hget
    · rw [hfind]
      rfl

theorem loadMerge_of_sub {α : Type} {mem : List (String × Collection α)}
    (hnd : (mem.map Prod.fst).Nodup)
    (hin : ∀ kv ∈ mem, (kv.2.map Prod.fst).Nodup) :
    ∀ l, (∀ kv ∈ l, kv ∈ mem) → loadMerge mem l = mem := by
  intro l
  induction l with
  | nil => intro _; rfl
  | cons kv tl ih =>
    intro hsub
    have hkv : kv ∈ mem := hsub kv (List.mem_cons_self kv tl)
    have hget : objGet mem kv.1 = some kv.2 := objGet_of_mem_nodup hnd hkv
    have hstep :
        objSet mem kv.1 (objAssign ((objGet mem kv.1).getD []) kv.2) = mem := by
      rw [hget]
      show objSet mem kv.1 (objAssign kv.2 kv.2) = mem
      rw [objAssign_self kv.2 (hin kv hkv)]
      refine objSet_self hget ?_
      intro kv' hkv' hk
      have := objGet_of_mem_nodup hnd hkv'
      rw [hk, hget] at this
      exact (Option.some.injEq _ _).mp this.symm
    show loadMerge mem (kv :: tl) = mem
    unfold loadMerge at ih ⊢
    rw [List.foldl_cons, hstep]
    exact ih (fun kv' h => hsub kv' (List.mem_cons_of_mem kv h))

/-- C5: with a storage adapter registered, `save()` then `load()` with
no mutation in between leaves the `users`, `rooms` and `private`
collections equal to their values before the save.  The `Nodup`
hypotheses say the association lists represent genuine JS objects
(no duplicate keys). -/
theorem memory_save_load_roundtrip {α : Type} (s : MemorySys α)
    (hA : s.storage.isSome)
    (hnd : (s.mem.map Prod.fst).Nodup)
    (hin : ∀ kv ∈ s.mem, (kv.2.map Prod.fst).Nodup) :
    ∃ s', (Memory.save s).bind Memory.load = Except.ok s' ∧
      objGet s'.mem "users" = objGet s.mem "users" ∧
      objGet s'.mem "rooms" = objGet s.mem "rooms" ∧
      objGet s'.mem "private" = objGet s.mem "private" := by
  rcases hst : s.storage with _ | st
  · rw [hst] at hA
    cases hA
  · refine ⟨{ s with storage := some (some s.mem) }, ?_, rfl, rfl, rfl⟩
    show (Memory.save s).bind Memory.load = _
    unfold Memory.save
    rw [hst]
    show Memory.load { s with storage := some (some s.mem) } = _
    unfold Memory.load
    have : loadMerge s.mem s.mem = s.mem :=
      loadMerge_of_sub hnd hin s.mem (fun _ h => h)
    simp only [Option.getD_some, this]

/-- C5 witness input: a small memory with the three well-known
collections and a registered storage adapter. -/
def c5Sys : MemorySys Nat :=
  { mem := [("users", [("u1", 1)]), ("rooms", [("r1", 2)]), ("private", [("k", 3)])]
    storage := some none }

/-- C5 witness: the round-trip theorem applied at `c5Sys`. -/
theorem memory_save_load_roundtrip_witness :
    ∃ s', (Memory.save c5Sys).bind Memory.load = Except.ok s' ∧
      objGet s'.mem "users" = objGet c5Sys.mem "users" ∧
      objGet s'.mem "rooms" = objGet c5Sys.mem "rooms" ∧
      objGet s'.mem "private" = objGet c5Sys.mem "private" :=
  memory_save_load_roundtrip c5Sys (by decide) (by decide) (by decide)

/-- Memory system with no storage adapter registered. -/
def c7Sys : MemorySys Nat :=
  { mem := [("users", []), ("rooms", []), ("private", [])]
    storage := none }

/-- C7 counterexample: with no storage adapter, `save()` and `load()`
return without error — neither fails with `StorageUnavailable` as the
claim states. -/
theorem memory_no_storage_counterexample :
    Memory.save c7Sys = Except.ok c7Sys ∧
      Memory.load c7Sys = Except.ok c7Sys ∧
      Memory.save c7Sys ≠ Except.error MemoryFailure.storageUnavailable ∧
      Memory.load c7Sys ≠ Except.error MemoryFailure.storageUnavailable := by
  refine ⟨rfl, rfl, ?_, ?_⟩ <;> intro h <;> cases h

/-- C7 amended: with no storage adapter registered, `save()` and
`load()` are error-free no-ops (load only logs a warning). -/
theorem memory_no_storage_noop {α : Type} (s : MemorySys α)
    (h : s.storage = none) :
    Memory.save s = Except.ok s ∧ Memory.load s = Except.ok s := by
  unfold Memory.save Memory.load
  rw [h]
  exact ⟨rfl, rfl⟩

/-- C7 amended witness: the no-op theorem applied at a concrete
adapter-less memory system. -/
theorem memory_no_storage_noop_witness :
    Memory.save c7Sys = Except.ok c7Sys ∧ Memory.load c7Sys = Except.ok c7Sys :=
  memory_no_storage_noop c7Sys rfl

/-! ### Lifecycle controller (src/lib/core, in unnamed part_003)

The module-level `status` object maps the six lifecycle names to 0/1
flags; `setStatus` writes 1 for the chosen name and 0 for the rest, and
`getStatus` returns the first name whose flag is 1, or `"broken"`.
The map is modelled with its fixed insertion order of keys. -/

def statusKeys : List String :=
  ["waiting", "loading", "loaded", "starting", "started", "shutdown"]

abbrev StatusMap := List (String × Nat)

/-- The module initialiser: `waiting: 1`, everything else `0`. -/
def initialStatus : StatusMap :=
  [("waiting", 1), ("loading", 0), ("loaded", 0),
    ("starting", 0), ("started", 0), ("shutdown", 0)]

/-- `setStatus(set)`:
`for key of Object.keys(status)) status[key] = (set === key) ? 1 : 0`. -/
def setStatus (tgt : String) (st : StatusMap) : StatusMap :=
  st.map (fun kv => (kv.1, if tgt = kv.1 then 1 else 0))

/-- `getStatus()`: first key whose flag is 1, else `"broken"`. -/
def getStatus (st : StatusMap) : String :=
  match st.find? (fun kv => kv.2 = 1) with
  | some kv => kv.1
  | none => "broken"

/-- The status object's keys are the six lifecycle names, in order
(`setStatus` only ever assigns existing keys, so this never changes). -/
def WellFormedStatus (st : StatusMap) : Prop :=
  st.map Prod.fst = statusKeys

/-- Exactly one lifecycle flag is set to 1. -/
def ExactlyOneFlag (st : StatusMap) : Prop :=
  (st.filter (fun kv => kv.2 = 1)).length = 1

instance : DecidablePred WellFormedStatus := fun st =>
  inferInstanceAs (Decidable (st.map Prod.fst = statusKeys))

instance : DecidablePred ExactlyOneFlag := fun st =>
  inferInstanceAs (Decidable ((st.filter (fun kv => kv.2 = 1)).length = 1))

/-- Under well-formedness, `setStatus` produces the canonical map for
its target, independent of the previous flag values. -/
theorem setStatus_canonical (tgt : String) (st : StatusMap)
    (hWF : WellFormedStatus st) :
    setStatus tgt st = statusKeys.map (fun n => (n, if tgt = n then 1 else 0)) := by
  unfold setStatus
  rw [← hWF, List.map_map]
  rfl

/-- `setStatus` never changes the key structure. -/
theorem setStatus_WF (tgt : String) (st : StatusMap)
    (hWF : WellFormedStatus st) : WellFormedStatus (setStatus tgt st) := by
  unfold WellFormedStatus setStatus
  rw [List.map_map, ← hWF]
  rfl

/-- If one flag is set, `getStatus` returns one of the six lifecycle
names and never `"broken"`. -/
theorem getStatus_of_flags (st : StatusMap) (hWF : WellFormedStatus st)
    (h1 : ExactlyOneFlag st) :
    getStatus st ∈ statusKeys ∧ getStatus st ≠ "broken" := by
  have hne : st.filter (fun kv => kv.2 = 1) ≠ [] := by
    intro h
    have h1' : (st.filter (fun kv => kv.2 = 1)).length = 1 := h1
    rw [h] at h1'
    cases h1'
  rcases List.exists_mem_of_ne_nil _ hne with ⟨kv, hkv⟩
  have hmem := List.mem_filter.mp hkv
  have hfind : (st.find? (fun kv => kv.2 = 1)).isSome :=
    List.find?_isSome.mpr ⟨kv, hmem.1, hmem.2⟩
  rcases hsome : st.find? (fun kv => kv.2 = 1) with _ | kv'
  · rw [hsome] at hfind
    cases hfind
  · have hkv' : kv' ∈ st := List.mem_of_find?_eq_some hsome
    have hkey : kv'.1 ∈ statusKeys := by
      rw [← hWF]
      exact List.mem_map.mpr ⟨kv', hkv', rfl⟩
    have hget : getStatus st = kv'.1 := by
      unfold getStatus
      rw [hsome]
    constructor
    · rw [hget]
      exact hkey
    · rw [hget]
      intro hb
      rw [hb] at hkey
      revert hkey
      decide

/-- The five lifecycle operations (success paths), as transformers of
the status map; each mirrors the sequence of `getStatus` checks and
`setStatus` assignments in the source (`load`, `start`, `shutdown`,
`pause`, `reset`). -/
def shutdownOp (st : StatusMap) : StatusMap :=
  if getStatus st = "shutdown" then st else setStatus "shutdown" st

def pauseOp (st : StatusMap) : StatusMap :=
  setStatus "loaded" (shutdownOp st)

def resetOp (st : StatusMap) : StatusMap :=
  setStatus "waiting" (if getStatus st = "shutdown" then st else shutdownOp st)

def loadOp (st : StatusMap) : StatusMap :=
  setStatus "loaded" (setStatus "loading"
    (if getStatus st = "waiting" then st else resetOp st))

def startOp (st : StatusMap) : StatusMap :=
  setStatus "started" (setStatus "starting"
    (if getStatus st = "loaded" then st else loadOp st))

inductive LifecycleOp
  | load
  | start
  | shutdown
  | pause
  | reset
  deriving DecidableEq, Repr

def applyOp : LifecycleOp → StatusMap → StatusMap
  | .load => loadOp
  | .start => startOp
  | .shutdown => shutdownOp
  | .pause => pauseOp
  | .reset => resetOp

theorem shutdownOp_WF (st : StatusMap) (hWF : WellFormedStatus st) :
    WellFormedStatus (shutdownOp st) := by
  unfold shutdownOp
  split
  · exact hWF
  · exact setStatus_WF _ _ hWF

theorem resetOp_WF (st : StatusMap) (hWF : WellFormedStatus st) :
    WellFormedStatus (resetOp st) := by
  unfold resetOp
  refine setStatus_WF _ _ ?_
  split
  · exact hWF
  · exact shutdownOp_WF _ hWF

theorem loadOp_WF (st : StatusMap) (hWF : WellFormedStatus st) :
    WellFormedStatus (loadOp st) := by
  unfold loadOp
  refine setStatus_WF _ _ (setStatus_WF _ _ ?_)
  split
  · exact hWF
  · exact resetOp_WF _ hWF

/-- `ExactlyOneFlag` holds of the canonical map for each of the six
lifecycle names. -/
theorem canonical_exactlyOne (tgt : String) (htgt : tgt ∈ statusKeys) :
    ExactlyOneFlag (statusKeys.map (fun n => (n, if tgt = n then 1 else 0))) ∧
      getStatus (statusKeys.map (fun n => (n, if tgt = n then 1 else 0))) = tgt := by
  have h : tgt ∈ statusKeys := htgt
  simp only [statusKeys, List.mem_cons, List.not_mem_nil, or_false] at h
  rcases h with rfl | rfl | rfl | rfl | rfl | rfl <;> exact ⟨by decide, by decide⟩

/-- C10: the lifecycle state machine invariant — the initial status has
exactly one flag set (reading `waiting`), and each of the five
operations leaves exactly one flag set, so `getStatus` returns one of
the six lifecycle names and never `"broken"`. -/
theorem lifecycle_status_invariant :
    (ExactlyOneFlag initialStatus ∧ getStatus initialStatus = "waiting") ∧
      ∀ (op : LifecycleOp) (st : StatusMap),
        WellFormedStatus st → ExactlyOneFlag st →
          ExactlyOneFlag (applyOp op st) ∧
            getStatus (applyOp op st) ∈ statusKeys ∧
            getStatus (applyOp op st) ≠ "broken" := by
  refine ⟨⟨by decide, by decide⟩, ?_⟩
  intro op st hWF h1
  have main : ExactlyOneFlag (applyOp op st) ∧ WellFormedStatus (applyOp op st) := by
    cases op with
    | shutdown =>
      show ExactlyOneFlag (shutdownOp st) ∧ WellFormedStatus (shutdownOp st)
      unfold shutdownOp
      by_cases hgs : getStatus st = "shutdown"
      · rw [if_pos hgs]
        exact ⟨h1, hWF⟩
      · rw [if_neg hgs]
        refine ⟨?_, setStatus_WF _ _ hWF⟩
        rw [setStatus_canonical _ _ hWF]
        exact (canonical_exactlyOne "shutdown" (by decide)).1
    | pause =>
      have hWF' := shutdownOp_WF st hWF
      show ExactlyOneFlag (pauseOp st) ∧ WellFormedStatus (pauseOp st)
      unfold pauseOp
      refine ⟨?_, setStatus_WF _ _ hWF'⟩
      rw [setStatus_canonical _ _ hWF']
      exact (canonical_exactlyOne "loaded" (by decide)).1
    | reset =>
      have hWF' : WellFormedStatus
          (if getStatus st = "shutdown" then st else shutdownOp st) := by
        split
        · exact hWF
        · exact shutdownOp_WF _ hWF
      show ExactlyOneFlag (resetOp st) ∧ WellFormedStatus (resetOp st)
      unfold resetOp
      refine ⟨?_, setStatus_WF _ _ hWF'⟩
      rw [setStatus_canonical _ _ hWF']
      exact (canonical_exactlyOne "waiting" (by decide)).1
    | load =>
      have hWF' : WellFormedStatus
          (setStatus "loading" (if getStatus st = "waiting" then st else resetOp st)) := by
        refine setStatus_WF _ _ ?_
        split
        · exact hWF
        · exact resetOp_WF _ hWF
      show ExactlyOneFlag (loadOp st) ∧ WellFormedStatus (loadOp st)
      unfold loadOp
      refine ⟨?_, setStatus_WF _ _ hWF'⟩
      rw [setStatus_canonical _ _ hWF']
      exact (canonical_exactlyOne "loaded" (by decide)).1
    | start =>
      have hWF' : WellFormedStatus
          (setStatus "starting" (if getStatus st = "loaded" then st else loadOp st)) := by
        refine setStatus_WF _ _ ?_
        split
        · exact hWF
        · exact loadOp_WF _ hWF
      show ExactlyOneFlag (startOp st) ∧ WellFormedStatus (startOp st)
      unfold startOp
      refine ⟨?_, setStatus_WF _ _ hWF'⟩
      rw [setStatus_canonical _ _ hWF']
      exact (canonical_exactlyOne "started" (by decide)).1
  exact ⟨main.1, (getStatus_of_flags _ main.2 main.1).1,
    (getStatus_of_flags _ main.2 main.1).2⟩

/-- C10 witness: the invariant applied to the `load` transition from
the initial state. -/
theorem lifecycle_status_invariant_witness :
    ExactlyOneFlag (applyOp .load initialStatus) ∧
      getStatus (applyOp .load initialStatus) ∈ statusKeys ∧
      getStatus (applyOp .load initialStatus) ≠ "broken" :=
  lifecycle_status_invariant.2 .load initialStatus (by decide) (by decide)

/-! ### Shutdown during loading (C6)

`shutdown()` first reads the status; on `'loading'` it awaits the
`loaded` event before tearing down memory, adapters and server, then
sets the status to `shutdown`.  The awaited events and teardown calls
are modelled as an ordered action trace. -/

inductive ShutdownAction
  | waitEvent (name : String)
  | memoryShutdown
  | adaptersShutdown
  | serverShutdown
  | eventDelay
  | setStatusAction (name : String)
  | emitEvent (name : String)
  deriving DecidableEq, Repr

/-- The action sequence and final status of `shutdown(0)`, mirroring
the body of `shutdown` in the source: early return when already shut
down, an event wait when called during `loading` or `starting`, then
the LIFO teardown and the final status assignment. -/
def shutdownTrace (st : StatusMap) : List ShutdownAction × StatusMap :=
  if getStatus st = "shutdown" then ([], st)
  else
    let waits :=
      if getStatus st = "loading" then [ShutdownAction.waitEvent "loaded"]
      else if getStatus st = "starting" then [ShutdownAction.waitEvent "started"]
      else []
    (waits ++ [ShutdownAction.memoryShutdown, ShutdownAction.adaptersShutdown,
        ShutdownAction.serverShutdown, ShutdownAction.eventDelay,
        ShutdownAction.setStatusAction "shutdown", ShutdownAction.emitEvent "shutdown"],
      setStatus "shutdown" st)

/-- C6: calling `shutdown()` while the status is `loading` first waits
for the `loaded` event, only then tears down memory, adapters and
server in that order, and the final status is `shutdown`. -/
theorem shutdown_during_loading (st : StatusMap)
    (hWF : WellFormedStatus st) (h : getStatus st = "loading") :
    (shutdownTrace st).1 =
      [ShutdownAction.waitEvent "loaded", ShutdownAction.memoryShutdown,
        ShutdownAction.adaptersShutdown, ShutdownAction.serverShutdown,
        ShutdownAction.eventDelay, ShutdownAction.setStatusAction "shutdown",
        ShutdownAction.emitEvent "shutdown"] ∧
      getStatus (shutdownTrace st).2 = "shutdown" := by
  have hne : getStatus st ≠ "shutdown" := by
    rw [h]
    decide
  constructor
  · unfold shutdownTrace
    rw [if_neg hne, if_pos h]
    rfl
  · unfold shutdownTrace
    rw [if_neg hne]
    show getStatus (setStatus "shutdown" st) = "shutdown"
    rw [setStatus_canonical _ _ hWF]
    decide

/-- C6 witness: the theorem applied at the status map reached while
`load()` is in flight. -/
theorem shutdown_during_loading_witness :
    (shutdownTrace (setStatus "loading" initialStatus)).1 =
      [ShutdownAction.waitEvent "loaded", ShutdownAction.memoryShutdown,
        ShutdownAction.adaptersShutdown, ShutdownAction.serverShutdown,
        ShutdownAction.eventDelay, ShutdownAction.setStatusAction "shutdown",
        ShutdownAction.emitEvent "shutdown"] ∧
      getStatus (shutdownTrace (setStatus "loading" initialStatus)).2 = "shutdown" :=
  shutdown_during_loading (setStatus "loading" initialStatus) (by decide) (by decide)

/-! ### Settings name sanitisation (config, in unnamed part_003)

`safeName(name)` is `name.replace(/[^a-z0-9_-]/ig, '')` — note the `i`
flag, which makes the character class case-insensitive, so uppercase
ASCII letters are kept.  The `name`/`alias` setters store
`safeName(value)` in the config object. -/

/-- Characters kept by `/[^a-z0-9_-]/ig` removal: ASCII letters of
either case, digits, underscore, hyphen. -/
def nameAllowedChar (c : Char) : Bool :=
  (Char.ofNat 97 ≤ c && c ≤ Char.ofNat 122) ||
    (Char.ofNat 65 ≤ c && c ≤ Char.ofNat 90) ||
    (Char.ofNat 48 ≤ c && c ≤ Char.ofNat 57) ||
    c == Char.ofNat 95 || c == Char.ofNat 45

/-- The character set the claim states: lowercase letters, digits,
underscore, hyphen only. -/
def lowercaseAllowedChar (c : Char) : Bool :=
  (Char.ofNat 97 ≤ c && c ≤ Char.ofNat 122) ||
    (Char.ofNat 48 ≤ c && c ≤ Char.ofNat 57) ||
    c == Char.ofNat 95 || c == Char.ofNat 45

namespace Settings

/-- `Settings.safeName`. -/
def safeName (s : String) : String :=
  String.mk (s.toList.filter nameAllowedChar)

/-- The `name` setter: `this.set('name', this.safeName(name))`. -/
def setName (config : List (String × String)) (s : String) : List (String × String) :=
  objSet config "name" (safeName s)

/-- The `alias` setter: `this.set('alias', this.safeName(name))`. -/
def setAlias (config : List (String × String)) (s : String) : List (String × String) :=
  objSet config "alias" (safeName s)

end Settings

theorem find?_map_setFun {α : Type} {k : String} {v : α} :
    ∀ (o : List (String × α)), (o.find? (fun kv => kv.1 = k)).isSome →
      ((o.map (fun kv => if kv.1 = k then (k, v) else kv)).find?
        (fun kv => kv.1 = k)) = some (k, v) := by
  intro o
  induction o with
  | nil => intro h; cases h
  | cons hd tl ih =>
    intro h
    by_cases hk : hd.1 = k
    · rw [List.map_cons, if_pos hk, List.find?_cons_of_pos _ (by simp)]
    · rw [List.map_cons, if_neg hk, List.find?_cons_of_neg _ (by simp [hk])]
      refine ih ?_
      rw [List.find?_cons_of_neg _ (by simp [hk])] at h
      exact h

theorem find?_append_of_none {α : Type} {p : α → Bool} {o l : List α}
    (h : o.find? p = none) : (o ++ l).find? p = l.find? p := by
  induction o with
  | nil => rfl
  | cons hd tl ih =>
    rcases List.find?_eq_none.mp h hd (List.mem_cons_self hd tl) with hp
    rw [List.cons_append, List.find?_cons_of_neg _ (by simp [hp])]
    refine ih ?_
    rw [List.find?_cons_of_neg _ (by simp [hp])] at h
    exact h

/-- Reading a key straight after writing it returns the written value. -/
theorem objGet_objSet {α : Type} (o : List (String × α)) (k : String) (v : α) :
    objGet (objSet o k v) k = some v := by
  unfold objSet
  rcases hfind : (o.find? (fun kv => kv.1 = k)).isSome with _ | _
  · rw [if_neg (by rw [hfind]; exact Bool.false_ne_true)]
    unfold objGet
    rw [find?_append_of_none (Option.not_isSome_iff_eq_none.mp (by rw [hfind]; simp)),
      List.find?_cons_of_pos _ (by simp)]
    rfl
  · rw [if_pos hfind]
    unfold objGet
    rw [find?_map_setFun o hfind]
    rfl

/-- C9 counterexample: assigning `"A!"` through the name setter stores
`"A"`, which contains a character outside `[a-z0-9_-]` (the claim's
lowercase-only set). -/
theorem settings_name_counterexample :
    objGet (Settings.setName [] "A!") "name" = some "A" ∧
      (String.toList "A").all lowercaseAllowedChar = false := by
  constructor
  · rfl
  · decide

/-- C9 amended: the name and alias setters store `safeName` of the
input, whose characters all lie in `[a-zA-Z0-9_-]` — letters of either
case survive because of the regex `i` flag. -/
theorem settings_name_sanitised (config : List (String × String)) (s : String) :
    objGet (Settings.setName config s) "name" = some (Settings.safeName s) ∧
      objGet (Settings.setAlias config s) "alias" = some (Settings.safeName s) ∧
      (Settings.safeName s).toList.all nameAllowedChar = true := by
  refine ⟨objGet_objSet config "name" _, objGet_objSet config "alias" _, ?_⟩
  rw [List.all_eq_true]
  intro c hc
  have : c ∈ s.toList.filter nameAllowedChar := hc
  exact (List.mem_filter.mp this).2

/-! ### Middleware (src/lib/middleware.ts)

`Middleware.execute` wraps a promise whose `resolve` is captured as the
initial `done`.  `reduceStack` then iterates the *whole* stack with a
plain `for` loop — one iteration per piece, each awaited — and only
afterwards checks `isPending` to decide whether to run `complete`.
`isPending` is flipped by the promise's `.then` handler, which runs on
the microtask queue strictly between a piece's `done()` call (the
`resolve`) and the loop's own `await` continuations, so it is `false`
by the time the check runs whenever some executed piece called `done`.

Each piece is modelled by the state transformation its body performs
plus which of the calls it makes: `next()`, `done()`, neither, or a
throw.  (A piece may also call `next(newDone)` to wrap `done` with a
cleanup continuation; that only adds post-`complete` cleanup work and
changes none of the observables below, so it is not modelled.)  The
accumulator mirrors the mutable bindings of `reduceStack`: the state
object `b`, whether `resolve` has been called, whether a piece threw
(stopping the loop and feeding `reject`, a no-op on a settled promise),
and the execution log. -/

inductive PieceCtl
  | callNext
  | callDone
  | noCall
  | throwErr
  deriving DecidableEq, Repr

structure Piece (σ : Type) where
  effect : σ → σ
  ctl : PieceCtl

structure MwAcc (σ : Type) where
  b : σ
  resolved : Bool
  thrown : Bool
  rejected : Bool
  executed : List (Nat × PieceCtl)

/-- One `executePiece` call: run the piece body on the state, log it,
and record its `next`/`done`/throw behaviour.  `done()` is the captured
`resolve`; a throw is rethrown into `reduceStack`'s catch, which calls
`reject` — a no-op when the promise is already resolved. -/
def stepPiece (i : Nat) (p : Piece σ) (acc : MwAcc σ) : MwAcc σ :=
  let b := p.effect acc.b
  let ex := acc.executed ++ [(i, p.ctl)]
  match p.ctl with
  | .callDone => { acc with b := b, executed := ex, resolved := true }
  | .callNext => { acc with b := b, executed := ex }
  | .noCall => { acc with b := b, executed := ex }
  | .throwErr =>
      { acc with b := b, executed := ex, thrown := true, rejected := !acc.resolved }

/-- The `for (let piece of this.stack)` loop of `reduceStack`: every
piece runs in order — nothing inspects `done`/`next` between
iterations — until the end of the stack or a throw. -/
def runStack : List (Piece σ) → Nat → MwAcc σ → MwAcc σ
  | [], _, acc => acc
  | p :: rest, i, acc =>
    if acc.thrown then acc else runStack rest (i + 1) (stepPiece i p acc)

structure MwResult (σ : Type) where
  state : σ
  completeCalled : Bool
  executed : List (Nat × PieceCtl)
  rejected : Bool

/-- The loop state at entry of `reduceStack`: nothing resolved, nothing
executed. -/
def mwInit (init : σ) : MwAcc σ :=
  { b := init, resolved := false, thrown := false, rejected := false, executed := [] }

/-- `Middleware.execute`: run the stack, then — only if the promise is
still pending and no piece threw — invoke `complete` and the final
`done`.  The outer promise resolves with the state unless a piece threw
before any `done()` call. -/
def Middleware.execute (stack : List (Piece σ)) (init : σ) (complete : σ → σ) :
    MwResult σ :=
  let acc := runStack stack 0 (mwInit init)
  { state := if acc.thrown || acc.resolved then acc.b else complete acc.b
    completeCalled := !(acc.thrown || acc.resolved)
    executed := acc.executed
    rejected := acc.rejected }

/-- Invariant of `reduceStack`'s loop state: a logged `done()` call
means the promise is resolved, and a `reject` can only have happened on
a still-unresolved promise after a throw. -/
def MwInv (acc : MwAcc σ) : Prop :=
  (∀ i, (i, PieceCtl.callDone) ∈ acc.executed → acc.resolved = true) ∧
    (acc.rejected = true → acc.resolved = false ∧ acc.thrown = true)

theorem stepPiece_inv {σ : Type} {acc : MwAcc σ} (i : Nat) (p : Piece σ)
    (h : MwInv acc) (hth : acc.thrown = false) : MwInv (stepPiece i p acc) := by
  unfold stepPiece
  cases hctl : p.ctl with
  | callDone =>
    refine ⟨fun j hj => rfl, fun hr => ?_⟩
    exact absurd ((h.2 hr).2) (by rw [hth]; exact Bool.false_ne_true)
  | callNext =>
    refine ⟨fun j hj => ?_, fun hr => ?_⟩
    · rcases List.mem_append.mp hj with hj | hj
      · exact h.1 j hj
      · rcases List.mem_singleton.mp hj with hj
        cases hj
    · exact absurd ((h.2 hr).2) (by rw [hth]; exact Bool.false_ne_true)
  | noCall =>
    refine ⟨fun j hj => ?_, fun hr => ?_⟩
    · rcases List.mem_append.mp hj with hj | hj
      · exact h.1 j hj
      · rcases List.mem_singleton.mp hj with hj
        cases hj
    · exact absurd ((h.2 hr).2) (by rw [hth]; exact Bool.false_ne_true)
  | throwErr =>
    refine ⟨fun j hj => ?_, fun hr => ?_⟩
    · rcases List.mem_append.mp hj with hj | hj
      · exact h.1 j hj
      · rcases List.mem_singleton.mp hj with hj
        cases hj
    · have : (!acc.resolved) = true := hr
      refine ⟨by simpa using this, rfl⟩

theorem runStack_inv {σ : Type} :
    ∀ (l : List (Piece σ)) (i : Nat) (acc : MwAcc σ),
      MwInv acc → MwInv (runStack l i acc) := by
  intro l
  induction l with
  | nil => intro i acc h; exact h
  | cons p rest ih =>
    intro i acc h
    show MwInv (if acc.thrown then acc else runStack rest (i + 1) (stepPiece i p acc))
    by_cases hth : acc.thrown = true
    · rw [if_pos hth]
      exact h
    · rw [if_neg hth]
      exact ih (i + 1) _ (stepPiece_inv i p h (Bool.not_eq_true _ |>.mp hth))

/-- C1: if any piece that ran during `Middleware.execute` called its
`done` function, then `complete` is never invoked and the outer promise
resolves (does not reject) with the State. -/
theorem middleware_done_skips_complete {σ : Type}
    (stack : List (Piece σ)) (init : σ) (complete : σ → σ)
    (h : ∃ i, (i, PieceCtl.callDone) ∈ (Middleware.execute stack init complete).executed) :
    (Middleware.execute stack init complete).completeCalled = false ∧
      (Middleware.execute stack init complete).rejected = false := by
  rcases h with ⟨i, hi⟩
  have hInv : MwInv (runStack stack 0 (mwInit init)) := by
    refine runStack_inv stack 0 _ ⟨fun j hj => ?_, fun hr => ?_⟩
    · cases hj
    · cases hr
  have hex : (Middleware.execute stack init complete).executed =
      (runStack stack 0 (mwInit init)).executed := rfl
  rw [hex] at hi
  have hres := hInv.1 i hi
  constructor
  · show (!((runStack stack 0 (mwInit init)).thrown ||
      (runStack stack 0 (mwInit init)).resolved)) = false
    rw [hres, Bool.or_true, Bool.not_true]
  · show (runStack stack 0 (mwInit init)).rejected = false
    rcases hrej : (runStack stack 0 (mwInit init)).rejected with _ | _
    · rfl
    · exact absurd hres (by rw [(hInv.2 hrej).1]; exact Bool.false_ne_true)

/-- C1 witness input: one piece that increments the state and calls
`done()`. -/
def c1Stack : List (Piece Nat) :=
  [{ effect := fun n => n + 1, ctl := PieceCtl.callDone }]

/-- C1 witness: the theorem applied to `c1Stack`, with a `complete`
that would add 100 if it ever ran. -/
theorem middleware_done_skips_complete_witness :
    (Middleware.execute c1Stack 0 (fun n => n + 100)).completeCalled = false ∧
      (Middleware.execute c1Stack 0 (fun n => n + 100)).rejected = false :=
  middleware_done_skips_complete c1Stack 0 (fun n => n + 100) ⟨0, by decide⟩

/-- C2 failing input: piece 0 calls `done()`, piece 1 increments the
state and calls `next()`. -/
def c2Stack : List (Piece Nat) :=
  [{ effect := fun n => n, ctl := PieceCtl.callDone },
    { effect := fun n => n + 1, ctl := PieceCtl.callNext }]

/-- C2: evaluating the code at the failing input — after piece 0 calls
`done()`, piece 1 still runs (it appears in the execution log and its
state increment is observed), because `reduceStack`'s `for` loop never
checks for interruption; only `complete` is skipped. -/
theorem middleware_done_does_not_stop_stack :
    (Middleware.execute c2Stack 0 (fun n => n + 100)).executed =
        [(0, PieceCtl.callDone), (1, PieceCtl.callNext)] ∧
      (Middleware.execute c2Stack 0 (fun n => n + 100)).state = 1 ∧
      (Middleware.execute c2Stack 0 (fun n => n + 100)).completeCalled = false := by
  refine ⟨by decide, by decide, by decide⟩

/-! ### Condition/Expression compiler (src/lib/condition.ts)

`Expression.fromCondition` builds one pattern string per condition key,
then runs a rewrite loop over all but the last pattern: it extracts the
parenthesised chunks (`patterns[i].match(/(\(.+?\))/g)`), optionally
deletes a duplicate chunk, and finally **replaces the whole pattern by
its chunks joined together**, which drops any text outside parentheses
(such as the `^` anchor and `\b` boundary of a `starts` pattern).  The
pipeline below reproduces the string manipulation character by
character; the `range` key (whose pattern comes from the external
`to-regex-range` npm package) is outside the modelled key set and
unused by the claims. -/

/-- The characters escaped by `Expression.escape`
(`/[\-\[\]\/\{\}\(\)\*\+\?\.\\\^\$\|]/g`, replaced by a backslash and
the match). -/
def escapeSpecials : List Char := "-[]/\x7b\x7d()*+?.\\^$|".toList

/-- `Expression.escape`. -/
def Expression.escape (s : String) : String :=
  String.mk (s.toList.foldr
    (fun c acc => if c ∈ escapeSpecials then '\\' :: c :: acc else c :: acc) [])

/-- The word-boundary toggle: `const b = (config.matchWord) ? '\\b' : ''`. -/
def boundaryToggle (matchWord : Bool) : String :=
  if matchWord then "\\b" else ""

/-- The punctuation class with `ignorePunctuation` off (the default):
`'\\,\\-\\:'`. -/
def punctCls : String := "\\,\\-\\:"

/-- Escape each value and OR them together:
`value.map(v => this.escape(v)).join('|')` (with `ignorePunctuation`
off, so no optional-punctuation rewrite). -/
def prepValue (values : List String) : String :=
  String.intercalate "|" (values.map Expression.escape)

/-- The `switch (type)` of `fromCondition`, producing the pattern
pushed for each supported condition key. -/
def keyPattern (type : String) (value : String) (b p : String) : Option String :=
  if type = "is" then some ("^(" ++ value ++ ")$")
  else if type = "starts" then some ("^(?:" ++ value ++ ")" ++ b)
  else if type = "ends" then some (b ++ "(?:" ++ value ++ ")$")
  else if type = "contains" then some (b ++ "(" ++ value ++ ")" ++ b)
  else if type = "excludes" then some ("^((?!" ++ b ++ value ++ b ++ ").)*$")
  else if type = "after" then some ("(?:" ++ value ++ "\\s?)([\\w\\-\\s" ++ p ++ "]+)")
  else if type = "before" then some ("([\\w\\-\\s" ++ p ++ "]+)(?:\\s?" ++ value ++ ")")
  else none

/-- The pattern-building loop of `fromCondition` over the condition's
keys in declaration order. -/
def fromConditionPatterns (condition : List (String × List String)) (matchWord : Bool) :
    List String :=
  condition.filterMap
    (fun kv => keyPattern kv.1 (prepValue kv.2) (boundaryToggle matchWord) punctCls)

/-- Global matches of the lazy group regex `/(\(.+?\))/g` on a pattern
string: scanning left to right, each match is an opening parenthesis,
at least one further character, and the first closing parenthesis after
those. -/
def lazyGroupsAux : Nat → List Char → List (List Char)
  | 0, _ => []
  | _, [] => []
  | fuel + 1, c :: rest =>
    if c = '(' then
      match rest.findIdx? (fun ch => ch = ')') with
      | some j =>
        if 1 ≤ j then
          ('(' :: rest.take (j + 1)) :: lazyGroupsAux fuel (rest.drop (j + 1))
        else lazyGroupsAux fuel rest
      | none => lazyGroupsAux fuel rest
    else lazyGroupsAux fuel rest

def lazyGroups (s : String) : List String :=
  (lazyGroupsAux (s.length + 1) s.toList).map String.mk

/-- First index at which `pat` occurs in `hay` as a contiguous
substring. -/
def findSubAux (pat : List Char) : Nat → List Char → Option Nat
  | i, [] => if pat = [] then some i else none
  | i, c :: rest =>
    if pat.isPrefixOf (c :: rest) then some i else findSubAux pat (i + 1) rest

/-- JS `String.prototype.replace` with a plain string pattern: replace
the first occurrence only. -/
def jsReplaceFirst (s pat repl : String) : String :=
  match findSubAux pat.toList 0 s.toList with
  | none => s
  | some i =>
      String.mk (s.toList.take i ++ repl.toList ++ s.toList.drop (i + pat.length))

/-- One iteration of the rewrite loop on `patterns[i]`, reading the
(not yet rewritten) `patterns[next]`: delete a duplicated group, then
replace the pattern by its groups with capture groups converted to
non-capturing. -/
def rewriteOne (cur next : String) : String :=
  let groups := lazyGroups cur
  let cur1 :=
    match groups.get? 1 with
    | some g1 =>
        if g1.toList.isPrefixOf next.toList then jsReplaceFirst cur g1 "" else cur
    | none => cur
  let newGroups := lazyGroups cur1
  if newGroups = [] then cur1
  else String.join (newGroups.map
    (fun g => if ("(?").toList.isPrefixOf g.toList then g else jsReplaceFirst g "(" "(?:"))

/-- The full rewrite loop: every pattern except the last is rewritten
using its (original) successor; the loop breaks at the last pattern
(`if (!patterns[next]) break`, which also fires on an empty string). -/
def rewriteAll : List String → List String
  | [] => []
  | [x] => [x]
  | x :: y :: rest =>
      if y = "" then x :: y :: rest else rewriteOne x y :: rewriteAll (y :: rest)

/-- The regex source string `fromCondition` returns (its flags are `i`
for the default `ignoreCase`); `.*` when no pattern was produced. -/
def fromConditionRegexString (condition : List (String × List String))
    (matchWord : Bool) : String :=
  let patterns := rewriteAll (fromConditionPatterns condition matchWord)
  if patterns = [] then ".*" else String.join patterns

/-! #### A small regex semantics

The abstract syntax covers exactly the constructs appearing in the
compiled pattern; `renderSeq` prints it back to JS regex source so the
abstract term can be tied to the string produced by the pipeline above.
Matching follows JS semantics for these constructs: leftmost search
position wins, quantifiers are greedy with backtracking, the `i` flag
compares characters case-insensitively. -/

inductive ClsItem
  | word
  | space
  | litEsc (c : Char)
  | lit (c : Char)
  deriving DecidableEq, Repr

inductive Rx
  | lit (c : Char)
  | sp
  | wordB
  | anchorA
  | anchorZ
  | cls (items : List ClsItem)
  | group (idx : Option Nat) (rs : List Rx)
  | plus (r : Rx)
  | opt (r : Rx)

def renderCls : ClsItem → String
  | .word => "\\w"
  | .space => "\\s"
  | .litEsc c => String.mk ['\\', c]
  | .lit c => String.mk [c]

mutual
def renderRx : Rx → String
  | .lit c => String.mk [c]
  | .sp => "\\s"
  | .wordB => "\\b"
  | .anchorA => "^"
  | .anchorZ => "$"
  | .cls items => "[" ++ String.join (items.map renderCls) ++ "]"
  | .group none rs => "(?:" ++ renderSeq rs ++ ")"
  | .group (some _) rs => "(" ++ renderSeq rs ++ ")"
  | .plus r => renderRx r ++ "+"
  | .opt r => renderRx r ++ "?"

def renderSeq : List Rx → String
  | [] => ""
  | r :: rs => renderRx r ++ renderSeq rs
end

def isWordChar (c : Char) : Bool :=
  (Char.ofNat 97 ≤ c && c ≤ Char.ofNat 122) ||
    (Char.ofNat 65 ≤ c && c ≤ Char.ofNat 90) ||
    (Char.ofNat 48 ≤ c && c ≤ Char.ofNat 57) || c == Char.ofNat 95

def isSpaceChar (c : Char) : Bool :=
  c == ' ' || c == '\t' || c == '\n' || c == '\r' || c == '\x0b' || c == '\x0c'

/-- Case-insensitive character comparison (the `i` flag). -/
def ciEq (a b : Char) : Bool :=
  a.toLower == b.toLower

def clsMatch (items : List ClsItem) (c : Char) : Bool :=
  items.any (fun it =>
    match it with
    | .word => isWordChar c
    | .space => isSpaceChar c
    | .litEsc ch => ciEq ch c
    | .lit ch => ciEq ch c)

/-- Captured group spans: group index to (start, stop) offsets. -/
abbrev Caps := List (Nat × (Nat × Nat))

abbrev MRes := Nat × Caps

mutual
/-- Match a single regex term at a position, continuation-passing with
backtracking; the fuel only bounds recursion depth. -/
def mRx (ca : List Char) : Nat → Rx → Nat → Caps → (Nat → Caps → Option MRes) → Option MRes
  | 0, _, _, _, _ => none
  | fuel + 1, r, pos, caps, k =>
    match r with
    | .lit c =>
      match ca.get? pos with
      | some c2 => if ciEq c c2 then k (pos + 1) caps else none
      | none => none
    | .sp =>
      match ca.get? pos with
      | some c2 => if isSpaceChar c2 then k (pos + 1) caps else none
      | none => none
    | .cls items =>
      match ca.get? pos with
      | some c2 => if clsMatch items c2 then k (pos + 1) caps else none
      | none => none
    | .anchorA => if pos = 0 then k pos caps else none
    | .anchorZ => if pos = ca.length then k pos caps else none
    | .wordB =>
      let prevW := if pos = 0 then false
        else ((ca.get? (pos - 1)).map isWordChar).getD false
      let curW := ((ca.get? pos).map isWordChar).getD false
      if prevW != curW then k pos caps else none
    | .group idx rs =>
      mSeq ca fuel rs pos caps (fun p2 c2 =>
        k p2 (match idx with
          | some n => (n, (pos, p2)) :: c2
          | none => c2))
    | .plus r2 => mRx ca fuel r2 pos caps (fun p2 c2 => mStar ca fuel r2 p2 c2 k)
    | .opt r2 =>
      match mRx ca fuel r2 pos caps k with
      | some res => some res
      | none => k pos caps

/-- Greedy Kleene tail used by `plus`: try one more iteration first,
fall back to the continuation. -/
def mStar (ca : List Char) : Nat → Rx → Nat → Caps → (Nat → Caps → Option MRes) → Option MRes
  | 0, _, _, _, _ => none
  | fuel + 1, r2, pos, caps, k =>
    match mRx ca fuel r2 pos caps (fun p2 c2 => mStar ca fuel r2 p2 c2 k) with
    | some res => some res
    | none => k pos caps

def mSeq (ca : List Char) : Nat → List Rx → Nat → Caps → (Nat → Caps → Option MRes) → Option MRes
  | 0, _, _, _, _ => none
  | _ + 1, [], pos, caps, k => k pos caps
  | fuel + 1, r :: rs, pos, caps, k =>
      mRx ca fuel r pos caps (fun p2 c2 => mSeq ca fuel rs p2 c2 k)
end

/-- `str.match(re)` without the `g` flag: try successive start
positions left to right, return the first successful match. -/
def jsSearchAux (rs : List Rx) (ca : List Char) (fuel : Nat) :
    Nat → Nat → Option (Nat × MRes)
  | 0, _ => none
  | tries + 1, start =>
    match mSeq ca fuel rs start [] (fun p c => some (p, c)) with
    | some res => some (start, res)
    | none => jsSearchAux rs ca fuel tries (start + 1)

/-- The JS match result restricted to what `Conditions.exec` reads:
the whole match and capture group 1 (`match[1]`). -/
def jsMatchRx (rs : List Rx) (s : String) : Option (String × Option String) :=
  let ca := s.toList
  match jsSearchAux rs ca 200 (ca.length + 1) 0 with
  | none => none
  | some (start, (stop, caps)) =>
      some (String.mk ((ca.drop start).take (stop - start)),
        (caps.find? (fun x => x.1 = 1)).map
          (fun x => String.mk ((ca.drop x.2.1).take (x.2.2 - x.2.1))))

/-- The trim applied to `captured`:
`match[1].replace(/(^[\,\-\:\s]*)|([\,\-\:\s]*$)/g, '')`. -/
def trimCapChar (c : Char) : Bool :=
  c == ',' || c == '-' || c == ':' || isSpaceChar c

def trimCap (s : String) : String :=
  String.mk ((((s.toList.dropWhile trimCapChar).reverse.dropWhile trimCapChar).reverse))

/-- `Conditions.exec` with a single unnamed condition: `success` is the
truthiness of the single stored match. -/
def conditionsSuccess (rs : List Rx) (input : String) : Bool :=
  (jsMatchRx rs input).isSome

/-- `Conditions.captured` with a single unnamed condition: the trimmed
first capture group, or `undefined` when the match is null or has no
string at index 1. -/
def conditionsCaptured (rs : List Rx) (input : String) : Option String :=
  (jsMatchRx rs input).bind (fun m => m.2.map trimCap)

/-- The claim's condition `{ starts: "set", after: "set" }`, keys in
declaration order. -/
def c3Cond : List (String × List String) :=
  [("starts", ["set"]), ("after", ["set"])]

/-- The abstract syntax of the regex the pipeline produces for
`c3Cond`: `(?:set)(?:set\s?)([\w\-\s\,\-\:]+)` — the rewrite loop has
dropped the `^` anchor and `\b` boundary of the `starts` pattern, so
the compiled regex demands a second literal `set` immediately after the
first. -/
def c3Rx : List Rx :=
  [Rx.group none [Rx.lit 's', Rx.lit 'e', Rx.lit 't'],
    Rx.group none [Rx.lit 's', Rx.lit 'e', Rx.lit 't', Rx.opt Rx.sp],
    Rx.group (some 1)
      [Rx.plus (Rx.cls [ClsItem.word, ClsItem.litEsc '-', ClsItem.space,
        ClsItem.litEsc ',', ClsItem.litEsc '-', ClsItem.litEsc ':'])]]

/-- C3: evaluating the compiler at the claim's input.  The pattern
pipeline yields `(?:set)(?:set\s?)([\w\-\s\,\-\:]+)` (the rendering of
`c3Rx`), which does not match `"set alarm 7"` anywhere, so
`exec("set alarm 7")` stores a null match: `success` is `false` and
`captured` is `undefined` — not `true` and `"alarm 7"` as the claim
states. -/
theorem condition_starts_after_eval :
    fromConditionRegexString c3Cond true = "(?:set)(?:set\\s?)([\\w\\-\\s\\,\\-\\:]+)" ∧
      renderSeq c3Rx = fromConditionRegexString c3Cond true ∧
      jsMatchRx c3Rx "set alarm 7" = none ∧
      conditionsSuccess c3Rx "set alarm 7" = false ∧
      conditionsCaptured c3Rx "set alarm 7" = none := by
  refine ⟨by decide, by decide, by decide, by decide, by decide⟩

end Bbot
